import Mathlib

/-!
Verification development for the egui Direct3D10 rendering backend
(src/texture.rs and src/lib.rs).

The embedding models:
- the texture pool (src/texture.rs): an association list standing in for the
  HashMap (at most one entry per key, which we track with a well-formedness
  predicate), with GPU resource handles modelled as natural numbers handed
  out by a device whose fallible creation calls are driven by an oracle
  (failAt) so that the error-propagating paths of the Rust code are kept;
- the renderer (src/lib.rs): the per-frame command stream issued to the
  device context is accumulated in an explicit trace (Cmd), log warnings in
  a Warning list, and f32 arithmetic is idealized as exact rational
  arithmetic.
Rust panics (Option::unwrap on None, out-of-bounds slice indexing) are
modelled as dedicated error values distinct from GPU failures.
-/

set_option maxHeartbeats 1000000

/-- One RGBA pixel, 4 channels of 8-bit color (egui Color32). -/
structure Color32 where
  r : Nat
  g : Nat
  b : Nat
  a : Nat
deriving DecidableEq, Repr

/-- Color32::to_array: the 4 bytes r, g, b, a. -/
def Color32.to_array (c : Color32) : List Nat := [c.r, c.g, c.b, c.a]

/-- egui TextureId: two disjoint namespaces. -/
inductive TextureId where
  | managed (id : Nat)
  | user (id : Nat)
deriving DecidableEq, Repr

/-- egui ColorImage: size and row-major pixels. -/
structure ColorImage where
  width : Nat
  height : Nat
  pixels : List Color32
deriving DecidableEq, Repr

/-- egui ImageData; it has the single variant Color in the version used. -/
inductive ImageData where
  | color (c : ColorImage)
deriving DecidableEq, Repr

def ImageData.width : ImageData → Nat
  | .color c => c.width

def ImageData.height : ImageData → Nat
  | .color c => c.height

/-- egui epaint ImageDelta: an image and an optional [x, y] offset. -/
structure ImageDelta where
  image : ImageData
  pos : Option (Nat × Nat)
deriving DecidableEq, Repr

/-- ImageDelta::is_whole: a delta with no position replaces the whole texture. -/
def ImageDelta.is_whole (d : ImageDelta) : Bool := d.pos.isNone

/-- egui TexturesDelta: ordered set deltas followed by a free list. -/
structure TexturesDelta where
  set : List (TextureId × ImageDelta)
  free : List TextureId
deriving DecidableEq, Repr

/-- ManagedTexture from src/texture.rs: GPU texture handle, resource-view
handle, the resident pixel buffer and its width. -/
structure ManagedTexture where
  tex : Nat
  srv : Nat
  pixels : List Color32
  width : Nat
deriving DecidableEq, Repr

/-- Texture from src/texture.rs: managed by egui or registered by the user. -/
inductive Texture where
  | managed (m : ManagedTexture)
  | user (srv : Nat)
deriving DecidableEq, Repr

/-- Texture::is_managed. -/
def Texture.is_managed : Texture → Bool
  | .managed _ => true
  | .user _ => false

/-- Texture::is_user. -/
def Texture.is_user : Texture → Bool
  | .managed _ => false
  | .user _ => true

/-- The warnings the code can log (log::warn! call sites). -/
inductive Warning where
  | updateNonExisting (tid : TextureId)
  | partialUpdateUserTexture
  | incompleteTriangle
  | paintCallback
  | sampleNonExisting (tid : TextureId)
deriving DecidableEq, Repr

/-- A D3D10_BOX region (front = 0 and back = 1 are constant in the source
and omitted). -/
structure D3DBox where
  left : Nat
  top : Nat
  right : Nat
  bottom : Nat
deriving DecidableEq, Repr

/-- A clip rectangle (egui Rect), f32 coordinates idealized as rationals. -/
structure Rect where
  l : Rat
  t : Rat
  r : Rat
  b : Rat
deriving DecidableEq, Repr

/-- egui Rect * f32: scale all coordinates. -/
def scaleRect (rc : Rect) (k : Rat) : Rect :=
  ⟨rc.l * k, rc.t * k, rc.r * k, rc.b * k⟩

/-- The calls the code issues to the Direct3D device / device context,
recorded as an explicit trace. The scissor rectangle is recorded with its
exact rational coordinates (the i32 cast of the source is not modelled; no
claim depends on it). -/
inductive Cmd where
  | createTexture2D (width height : Nat) (handle : Nat)
  | createShaderResourceView (tex : Nat) (handle : Nat)
  | updateSubresource (tex : Nat) (box : D3DBox) (data : List Nat) (rowPitch : Nat)
  | createBuffer (size : Nat) (handle : Nat)
  | iaSetPrimitiveTopologyTriangleList
  | iaSetInputLayout
  | vsSetShader
  | psSetShader
  | rsSetState
  | rsSetViewports (width height : Nat)
  | psSetSamplers
  | omSetRenderTargets
  | omSetBlendState
  | iaSetVertexBuffers (vb : Nat)
  | iaSetIndexBuffer (ib : Nat)
  | rsSetScissorRects (rc : Rect)
  | psSetShaderResources (srv : Nat)
  | drawIndexed (indexCount : Nat)
deriving DecidableEq, Repr

/-- The ways an operation can stop abnormally: a GPU creation failure
(propagated as a windows::core::Result error) or a Rust panic. -/
inductive Err where
  | gpu
  | unwrapNone
  | indexOutOfBounds
deriving DecidableEq, Repr

/-- The Direct3D device: hands out fresh handles; the oracle failAt tells
which creation calls fail (modelling fallible GPU resource creation). -/
structure Device where
  counter : Nat
  failAt : Nat → Bool

/-- One fallible GPU resource creation on the device. -/
def Device.create (d : Device) : Except Err (Nat × Device) :=
  if d.failAt d.counter then .error .gpu
  else .ok (d.counter, ⟨d.counter + 1, d.failAt⟩)

/-- TexturePool from src/texture.rs. The HashMap is embedded as an
association list with at most one entry per key (see TexturePool.wf). -/
structure TexturePool where
  entries : List (TextureId × Texture)
  next_user_texture_id : Nat
deriving DecidableEq, Repr

/-- HashMap::get on the association list: first entry with the key. -/
def findTex : List (TextureId × Texture) → TextureId → Option Texture
  | [], _ => none
  | (k, v) :: rest, tid => if k = tid then some v else findTex rest tid

/-- HashMap::insert: replace the entry for the key, or append a new one. -/
def insertTex : List (TextureId × Texture) → TextureId → Texture → List (TextureId × Texture)
  | [], tid, t => [(tid, t)]
  | (k, v) :: rest, tid, t =>
    if k = tid then (tid, t) :: rest else (k, v) :: insertTex rest tid t

/-- HashMap::remove: drop the entry for the key. -/
def removeTex : List (TextureId × Texture) → TextureId → List (TextureId × Texture)
  | [], _ => []
  | (k, v) :: rest, tid => if k = tid then rest else (k, v) :: removeTex rest tid

/-- Well-formedness of the association-list embedding of the HashMap:
no two entries share a key. Every pool reachable through the API has it. -/
def TexturePool.wf (p : TexturePool) : Prop :=
  (p.entries.map Prod.fst).Nodup

/-- TexturePool::get_srv. -/
def TexturePool.get_srv (p : TexturePool) (tid : TextureId) : Option Nat :=
  (findTex p.entries tid).map fun t =>
    match t with
    | .managed m => m.srv
    | .user srv => srv

/-- TexturePool::register_user_texture: allocate the next user id, store a
User entry, return the id. -/
def TexturePool.register_user_texture (p : TexturePool) (srv : Nat) :
    TextureId × TexturePool :=
  let id := TextureId.user p.next_user_texture_id
  (id, { entries := insertTex p.entries id (.user srv),
         next_user_texture_id := p.next_user_texture_id + 1 })

/-- TexturePool::unregister_user_texture: remove the entry only when it
exists and is a User entry; report whether removal happened. -/
def TexturePool.unregister_user_texture (p : TexturePool) (tid : TextureId) :
    Bool × TexturePool :=
  match findTex p.entries tid with
  | some t =>
    if t.is_user then (true, { p with entries := removeTex p.entries tid })
    else (false, p)
  | none => (false, p)

/-- The state threaded through TexturePool::update and Renderer::render:
the device, the pool, the trace of device calls, and the logged warnings. -/
structure St where
  dev : Device
  pool : TexturePool
  cmds : List Cmd
  warns : List Warning

/-- TexturePool::create_managed_texture: clone the pixels, create a GPU
texture initialized with them and a shader resource view on it (either
creation may fail and is then propagated). -/
def create_managed_texture (dev : Device) (data : ImageData) :
    Except Err (Texture × Device × List Cmd) :=
  let width := data.width
  let pixels := match data with | .color c => c.pixels
  match dev.create with
  | .error e => .error e
  | .ok (tex, dev) =>
    match dev.create with
    | .error e => .error e
    | .ok (srv, dev) =>
      .ok (.managed ⟨tex, srv, pixels, width⟩, dev,
           [.createTexture2D data.width data.height tex,
            .createShaderResourceView tex srv])

/-- Write the 4 bytes of one pixel into the staging byte buffer at dst_idx
(update_data[dst_idx..dst_idx + 4].copy_from_slice(color_array)). -/
def setBytes (l : List Nat) (i : Nat) (c : Color32) : List Nat :=
  ((((l.set i c.r).set (i + 1) c.g).set (i + 2) c.b).set (i + 3) c.a)

/-- The body of the nested pixel loop of TexturePool::update_partial for
one (y, x): read the source pixel, write it into the resident buffer and
into the staging byte buffer. Out-of-bounds indexing panics in Rust; the
panic is modelled as none. -/
def writeStep (fpixels : List Color32) (fwidth width row_pitch nx ny : Nat)
    (st : Option (List Color32 × List Nat)) (y x : Nat) :
    Option (List Color32 × List Nat) :=
  match st with
  | none => none
  | some (pixels, data) =>
    let frac := y * fwidth + x
    let whole := (ny + y) * width + nx + x
    let dst_idx := y * row_pitch + x * 4
    match fpixels.get? frac with
    | none => none
    | some v =>
      if whole < pixels.length then
        some (pixels.set whole v, setBytes data dst_idx v)
      else none

/-- The nested pixel loop of TexturePool::update_partial:
for y in 0..height, for x in 0..width. -/
def writeLoop (f : ColorImage) (width row_pitch nx ny : Nat)
    (pixels : List Color32) (data : List Nat) :
    Option (List Color32 × List Nat) :=
  (List.range f.height).foldl
    (fun st y =>
      (List.range f.width).foldl
        (fun st2 x => writeStep f.pixels f.width width row_pitch nx ny st2 y x)
        st)
    (some (pixels, data))

/-- TexturePool::update_partial: reject (with a warning) when the target is
a User texture; otherwise write the sub-image into the resident pixel
buffer and issue a region-limited UpdateSubresource with the staged bytes,
row pitch = sub-image width * 4. -/
def updatePartial (old : Texture) (image : ImageData) (pos : Nat × Nat) :
    Except Err (Texture × List Cmd × List Warning) :=
  match old with
  | .user srv => .ok (.user srv, [], [.partialUpdateUserTexture])
  | .managed old =>
    match image with
    | .color f =>
      let nx := pos.1
      let ny := pos.2
      let row_pitch := f.width * 4
      let update_data := List.replicate (f.height * row_pitch) 0
      match writeLoop f old.width row_pitch nx ny old.pixels update_data with
      | none => .error .indexOutOfBounds
      | some (pixels, data) =>
        .ok (.managed { old with pixels := pixels },
             [.updateSubresource old.tex
                ⟨nx, ny, nx + f.width, ny + f.height⟩ data row_pitch],
             [])

/-- The set-delta loop of TexturePool::update. A whole delta with positive
size replaces the pool entry with a freshly created managed texture; other
deltas partially update an existing Managed entry, logging a warning when
the entry is absent or not managed. A whole delta with zero width or
height that finds a Managed entry reaches delta.pos.unwrap() on None,
a panic. -/
def applySet : List (TextureId × ImageDelta) → Device → TexturePool →
    List Cmd → List Warning → Except Err St
  | [], dev, p, cmds, warns => .ok ⟨dev, p, cmds, warns⟩
  | (tid, d) :: rest, dev, p, cmds, warns =>
    if d.is_whole && decide (0 < d.image.width) && decide (0 < d.image.height) then
      match create_managed_texture dev d.image with
      | .error e => .error e
      | .ok (tex, dev2, newCmds) =>
        applySet rest dev2 { p with entries := insertTex p.entries tid tex }
          (cmds ++ newCmds) warns
    else
      match findTex p.entries tid with
      | some t =>
        if t.is_managed then
          match d.pos with
          | none => .error .unwrapNone
          | some pos =>
            match updatePartial t d.image pos with
            | .error e => .error e
            | .ok (t2, newCmds, newWarns) =>
              applySet rest dev { p with entries := insertTex p.entries tid t2 }
                (cmds ++ newCmds) (warns ++ newWarns)
        else applySet rest dev p cmds (warns ++ [.updateNonExisting tid])
      | none => applySet rest dev p cmds (warns ++ [.updateNonExisting tid])

/-- The free loop of TexturePool::update: remove the entry only when it is
Managed. -/
def applyFree : List TextureId → TexturePool → TexturePool
  | [], p => p
  | tid :: rest, p =>
    match findTex p.entries tid with
    | some t =>
      if t.is_managed then
        applyFree rest { p with entries := removeTex p.entries tid }
      else applyFree rest p
    | none => applyFree rest p

/-- TexturePool::update: all set deltas, then all frees. -/
def TexturePool.update (dev : Device) (p : TexturePool)
    (delta : TexturesDelta) : Except Err St :=
  match applySet delta.set dev p [] [] with
  | .error e => .error e
  | .ok st => .ok { st with pool := applyFree delta.free st.pool }

/-- An egui epaint Vertex: logical-pixel position, texture coordinates and
an 8-bit RGBA color. f32 coordinates are idealized as rationals. -/
structure Vertex where
  pos : Rat × Rat
  uv : Rat × Rat
  color : Color32
deriving DecidableEq, Repr

/-- An egui epaint Mesh as produced by tessellation. -/
structure Mesh where
  indices : List Nat
  vertices : List Vertex
  texture_id : TextureId
deriving DecidableEq, Repr

/-- An egui epaint Primitive: a triangle mesh or a paint callback. -/
inductive Primitive where
  | mesh (m : Mesh)
  | callback
deriving DecidableEq, Repr

/-- An egui ClippedPrimitive. -/
structure ClippedPrimitive where
  clip_rect : Rect
  primitive : Primitive
deriving DecidableEq, Repr

/-- VertexData from src/lib.rs: NDC position, UV, float RGBA color. -/
structure VertexData where
  pos : Rat × Rat
  uv : Rat × Rat
  color : Rat × Rat × Rat × Rat
deriving DecidableEq, Repr

/-- MeshData from src/lib.rs: the per-draw unit. -/
structure MeshData where
  vtx : List VertexData
  idx : List Nat
  tex : TextureId
  clip_rect : Rect
deriving DecidableEq, Repr

/-- The per-vertex map of Renderer::render: positions to normalized device
coordinates (Y flipped), UV unchanged, 8-bit color channels divided by 255. -/
def transformVertex (zoom_factor fw fh : Rat) (v : Vertex) : VertexData :=
  { pos := (v.pos.1 * zoom_factor / fw * 2 - 1,
            1 - v.pos.2 * zoom_factor / fh * 2),
    uv := v.uv,
    color := ((v.color.r : Rat) / 255, (v.color.g : Rat) / 255,
              (v.color.b : Rat) / 255, (v.color.a : Rat) / 255) }

/-- frame_size_scaled in Renderer::render: the physical frame size divided
by pixels_per_point. -/
def frameSizeScaled (frame_size : Nat × Nat) (pixels_per_point : Rat) :
    Rat × Rat :=
  ((frame_size.1 : Rat) / pixels_per_point,
   (frame_size.2 : Rat) / pixels_per_point)

/-- The two filter_map stages of Renderer::render over the tessellated
primitives: drop paint callbacks (warning), drop meshes with no indices,
drop meshes with an index count not a multiple of 3 (warning), and turn
the rest into MeshData with transformed vertices and a clip rectangle
scaled by pixels_per_point and zoom_factor. -/
def processPrims (zoom_factor pixels_per_point : Rat) (fss : Rat × Rat) :
    List ClippedPrimitive → List MeshData × List Warning
  | [] => ([], [])
  | cp :: rest =>
    let (ms, ws) := processPrims zoom_factor pixels_per_point fss rest
    match cp.primitive with
    | .callback => (ms, .paintCallback :: ws)
    | .mesh m =>
      if m.indices.isEmpty then (ms, ws)
      else if m.indices.length % 3 != 0 then (ms, .incompleteTriangle :: ws)
      else
        ({ vtx := m.vertices.map (transformVertex zoom_factor fss.1 fss.2),
           idx := m.indices,
           tex := m.texture_id,
           clip_rect := scaleRect (scaleRect cp.clip_rect pixels_per_point)
             zoom_factor } :: ms,
         ws)

/-- Renderer::draw_mesh: create the index buffer (4 bytes per u32 index)
and the vertex buffer (32 bytes per VertexData), bind them, set the
scissor rectangle, bind the resolved resource view at pixel-shader slot 0
when the texture id resolves (warning otherwise), and issue the indexed
draw over all indices. -/
def draw_mesh (pool : TexturePool) (dev : Device) (m : MeshData) :
    Except Err (Device × List Cmd × List Warning) :=
  match dev.create with
  | .error e => .error e
  | .ok (ib, dev) =>
    match dev.create with
    | .error e => .error e
    | .ok (vb, dev) =>
      let front := [Cmd.createBuffer (m.idx.length * 4) ib,
                    Cmd.createBuffer (m.vtx.length * 32) vb,
                    Cmd.iaSetVertexBuffers vb,
                    Cmd.iaSetIndexBuffer ib,
                    Cmd.rsSetScissorRects m.clip_rect]
      match pool.get_srv m.tex with
      | some srv =>
        .ok (dev,
             front ++ [Cmd.psSetShaderResources srv,
                       Cmd.drawIndexed m.idx.length],
             [])
      | none =>
        .ok (dev,
             front ++ [Cmd.drawIndexed m.idx.length],
             [.sampleNonExisting m.tex])

/-- The draw loop of Renderer::render: draw each mesh, propagating errors. -/
def drawMeshes (pool : TexturePool) : List MeshData → Device →
    Except Err (Device × List Cmd × List Warning)
  | [], dev => .ok (dev, [], [])
  | m :: rest, dev =>
    match draw_mesh pool dev m with
    | .error e => .error e
    | .ok (dev, cmds, warns) =>
      match drawMeshes pool rest dev with
      | .error e => .error e
      | .ok (dev2, cmds2, warns2) =>
        .ok (dev2, cmds ++ cmds2, warns ++ warns2)

/-- Renderer::setup: the fixed pipeline state bound on every non-empty
frame. -/
def setupCmds (frame_size : Nat × Nat) : List Cmd :=
  [.iaSetPrimitiveTopologyTriangleList, .iaSetInputLayout, .vsSetShader,
   .psSetShader, .rsSetState, .rsSetViewports frame_size.1 frame_size.2,
   .psSetSamplers, .omSetRenderTargets, .omSetBlendState]

/-- RendererOutput from src/lib.rs; the shape type is kept abstract since
shapes are only passed through to the external tessellator. -/
structure RendererOutput (α : Type) where
  textures_delta : TexturesDelta
  shapes : List α
  pixels_per_point : Rat

/-- Renderer::render. Texture deltas are applied first; an empty shape list
returns right after with no further device calls. The render-target size
introspection (GetResource/GetDesc) is modelled by the frame_size input,
and the external tessellator together with the egui context are modelled
by the tess function and the zoom_factor value. -/
def render {α : Type} (tess : List α → List ClippedPrimitive)
    (zoom_factor : Rat) (dev : Device) (pool : TexturePool)
    (frame_size : Nat × Nat) (out : RendererOutput α) : Except Err St :=
  match TexturePool.update dev pool out.textures_delta with
  | .error e => .error e
  | .ok u =>
    if out.shapes.isEmpty then .ok u
    else
      let fss := frameSizeScaled frame_size out.pixels_per_point
      let (meshes, pwarns) :=
        processPrims zoom_factor out.pixels_per_point fss (tess out.shapes)
      match drawMeshes u.pool meshes u.dev with
      | .error e => .error e
      | .ok (dev2, dcmds, dwarns) =>
        .ok ⟨dev2, u.pool, u.cmds ++ setupCmds frame_size ++ dcmds,
             u.warns ++ pwarns ++ dwarns⟩

/-! ### Association-list lemmas for the HashMap embedding -/

theorem findTex_insertTex_self (l : List (TextureId × Texture))
    (k : TextureId) (v : Texture) : findTex (insertTex l k v) k = some v := by
  induction l with
  | nil => simp [insertTex, findTex]
  | cons hd tl ih =>
    obtain ⟨a, b⟩ := hd
    by_cases h : a = k
    · simp [insertTex, h, findTex]
    · simp [insertTex, h, findTex, ih]

theorem findTex_insertTex_ne (l : List (TextureId × Texture))
    (k k2 : TextureId) (v : Texture) (h : k ≠ k2) :
    findTex (insertTex l k v) k2 = findTex l k2 := by
  induction l with
  | nil => simp [insertTex, findTex, h]
  | cons hd tl ih =>
    obtain ⟨a, b⟩ := hd
    by_cases ha : a = k
    · subst ha
      simp [insertTex, findTex, h]
    · simp [insertTex, ha, findTex, ih]

theorem findTex_removeTex_ne (l : List (TextureId × Texture))
    (k k2 : TextureId) (h : k ≠ k2) :
    findTex (removeTex l k) k2 = findTex l k2 := by
  induction l with
  | nil => simp [removeTex]
  | cons hd tl ih =>
    obtain ⟨a, b⟩ := hd
    by_cases ha : a = k
    · subst ha
      simp [removeTex, findTex, h]
    · simp [removeTex, ha, findTex, ih]

theorem findTex_eq_none_of_not_mem_keys (l : List (TextureId × Texture))
    (k : TextureId) (h : k ∉ l.map Prod.fst) : findTex l k = none := by
  induction l with
  | nil => simp [findTex]
  | cons hd tl ih =>
    obtain ⟨a, b⟩ := hd
    simp only [List.map_cons, List.mem_cons] at h
    push_neg at h
    simp [findTex, Ne.symm h.1, ih h.2]

theorem findTex_removeTex_self (l : List (TextureId × Texture))
    (k : TextureId) (hnd : (l.map Prod.fst).Nodup) :
    findTex (removeTex l k) k = none := by
  induction l with
  | nil => simp [removeTex, findTex]
  | cons hd tl ih =>
    obtain ⟨a, b⟩ := hd
    simp only [List.map_cons, List.nodup_cons] at hnd
    by_cases ha : a = k
    · subst ha
      simpa [removeTex] using findTex_eq_none_of_not_mem_keys tl a hnd.1
    · simp [removeTex, ha, findTex, ih hnd.2]

theorem findTex_removeTex_of_none (l : List (TextureId × Texture))
    (k k2 : TextureId) (h : findTex l k2 = none) :
    findTex (removeTex l k) k2 = none := by
  induction l with
  | nil => simpa [removeTex] using h
  | cons hd tl ih =>
    obtain ⟨a, b⟩ := hd
    simp only [findTex] at h
    by_cases ha2 : a = k2
    · simp [ha2] at h
    · simp only [ha2, if_false] at h
      by_cases ha : a = k
      · simpa [removeTex, ha] using h
      · simp [removeTex, ha, findTex, ha2, ih h]

theorem mem_keys_insertTex (l : List (TextureId × Texture))
    (k x : TextureId) (v : Texture) :
    x ∈ (insertTex l k v).map Prod.fst ↔ x ∈ l.map Prod.fst ∨ x = k := by
  induction l with
  | nil => simp [insertTex]
  | cons hd tl ih =>
    obtain ⟨a, b⟩ := hd
    by_cases ha : a = k
    · subst ha
      simp only [insertTex, if_true, List.map_cons, List.mem_cons]
      tauto
    · simp only [insertTex, if_neg ha, List.map_cons, List.mem_cons, ih]
      tauto

theorem nodup_keys_insertTex (l : List (TextureId × Texture))
    (k : TextureId) (v : Texture) (h : (l.map Prod.fst).Nodup) :
    ((insertTex l k v).map Prod.fst).Nodup := by
  induction l with
  | nil => simp [insertTex]
  | cons hd tl ih =>
    obtain ⟨a, b⟩ := hd
    simp only [List.map_cons, List.nodup_cons] at h
    by_cases ha : a = k
    · subst ha
      simpa [insertTex, List.nodup_cons] using h
    · simp only [insertTex, if_neg ha, List.map_cons, List.nodup_cons]
      refine ⟨?_, ih h.2⟩
      rw [mem_keys_insertTex]
      rintro (hm | hm)
      · exact h.1 hm
      · exact ha hm

theorem keys_removeTex_sublist (l : List (TextureId × Texture))
    (k : TextureId) :
    ((removeTex l k).map Prod.fst).Sublist (l.map Prod.fst) := by
  induction l with
  | nil => simp [removeTex]
  | cons hd tl ih =>
    obtain ⟨a, b⟩ := hd
    by_cases ha : a = k
    · simp [removeTex, ha]
    · simpa [removeTex, ha] using ih.cons₂ a

theorem nodup_keys_removeTex (l : List (TextureId × Texture))
    (k : TextureId) (h : (l.map Prod.fst).Nodup) :
    ((removeTex l k).map Prod.fst).Nodup :=
  (keys_removeTex_sublist l k).nodup h

/-! ### Lemmas about the set and free loops of TexturePool::update -/

theorem updatePartial_managed (t t2 : Texture) (img : ImageData)
    (pos : Nat × Nat) (c : List Cmd) (w : List Warning)
    (hm : t.is_managed = true)
    (h : updatePartial t img pos = .ok (t2, c, w)) : t2.is_managed = true := by
  cases t with
  | user srv => simp [Texture.is_managed] at hm
  | managed old =>
    cases img with
    | color f =>
      simp only [updatePartial] at h
      cases hwl : writeLoop f old.width (f.width * 4) pos.1 pos.2 old.pixels
          (List.replicate (f.height * (f.width * 4)) 0) with
      | none => rw [hwl] at h; exact absurd h (by simp)
      | some pr =>
        rw [hwl] at h
        obtain ⟨pix, dat⟩ := pr
        simp only [Except.ok.injEq, Prod.mk.injEq] at h
        rw [← h.1]
        rfl

theorem create_managed_texture_managed (dev : Device) (img : ImageData)
    (tex : Texture) (dev2 : Device) (cmds : List Cmd)
    (h : create_managed_texture dev img = .ok (tex, dev2, cmds)) :
    tex.is_managed = true := by
  simp only [create_managed_texture] at h
  split at h
  · exact absurd h (by simp)
  · split at h
    · exact absurd h (by simp)
    · simp only [Except.ok.injEq, Prod.mk.injEq] at h
      rw [← h.1]
      rfl

theorem applySet_counter : ∀ (l : List (TextureId × ImageDelta))
    (dev : Device) (p : TexturePool) (cmds : List Cmd) (warns : List Warning)
    (st : St), applySet l dev p cmds warns = .ok st →
    st.pool.next_user_texture_id = p.next_user_texture_id := by
  intro l
  induction l with
  | nil =>
    intro dev p cmds warns st h
    simp only [applySet, Except.ok.injEq] at h
    rw [← h]
  | cons hd rest ih =>
    intro dev p cmds warns st h
    obtain ⟨tid, d⟩ := hd
    simp only [applySet] at h
    split at h
    · split at h
      · exact absurd h (by simp)
      · have hx := ih _ _ _ _ _ h
        exact hx
    · split at h
      · split at h
        · split at h
          · exact absurd h (by simp)
          · split at h
            · exact absurd h (by simp)
            · have hx := ih _ _ _ _ _ h
              exact hx
        · exact ih _ _ _ _ _ h
      · exact ih _ _ _ _ _ h

theorem applySet_wf : ∀ (l : List (TextureId × ImageDelta))
    (dev : Device) (p : TexturePool) (cmds : List Cmd) (warns : List Warning)
    (st : St), p.wf → applySet l dev p cmds warns = .ok st → st.pool.wf := by
  intro l
  induction l with
  | nil =>
    intro dev p cmds warns st hwf h
    simp only [applySet, Except.ok.injEq] at h
    rw [← h]
    exact hwf
  | cons hd rest ih =>
    intro dev p cmds warns st hwf h
    obtain ⟨tid, d⟩ := hd
    simp only [applySet] at h
    split at h
    · split at h
      · exact absurd h (by simp)
      · refine ih _ _ _ _ _ ?_ h
        exact nodup_keys_insertTex _ _ _ hwf
    · split at h
      · split at h
        · split at h
          · exact absurd h (by simp)
          · split at h
            · exact absurd h (by simp)
            · refine ih _ _ _ _ _ ?_ h
              exact nodup_keys_insertTex _ _ _ hwf
        · exact ih _ _ _ _ _ hwf h
      · exact ih _ _ _ _ _ hwf h

theorem applySet_managed_preserved : ∀ (l : List (TextureId × ImageDelta))
    (dev : Device) (p : TexturePool) (cmds : List Cmd) (warns : List Warning)
    (st : St) (t : TextureId) (tex : Texture),
    findTex p.entries t = some tex → tex.is_managed = true →
    applySet l dev p cmds warns = .ok st →
    ∃ tex2, findTex st.pool.entries t = some tex2 ∧ tex2.is_managed = true := by
  intro l
  induction l with
  | nil =>
    intro dev p cmds warns st t tex hft hm h
    simp only [applySet, Except.ok.injEq] at h
    rw [← h]
    exact ⟨tex, hft, hm⟩
  | cons hd rest ih =>
    intro dev p cmds warns st t tex hft hm h
    obtain ⟨tid, d⟩ := hd
    simp only [applySet] at h
    split at h
    · split at h
      · exact absurd h (by simp)
      · rename_i ntex dev2 newCmds hcr
        by_cases htid : tid = t
        · subst htid
          refine ih _ _ _ _ _ tid ntex (findTex_insertTex_self _ _ _) ?_ h
          exact create_managed_texture_managed _ _ _ _ _ hcr
        · refine ih _ _ _ _ _ t tex ?_ hm h
          rw [findTex_insertTex_ne _ _ _ _ htid]
          exact hft
    · split at h
      · rename_i told hf
        split at h
        · rename_i hmo
          split at h
          · exact absurd h (by simp)
          · rename_i pos hp
            split at h
            · exact absurd h (by simp)
            · rename_i t2 newCmds newWarns hup
              by_cases htid : tid = t
              · subst htid
                refine ih _ _ _ _ _ tid t2 (findTex_insertTex_self _ _ _) ?_ h
                exact updatePartial_managed told t2 d.image pos _ _ hmo hup
              · refine ih _ _ _ _ _ t tex ?_ hm h
                rw [findTex_insertTex_ne _ _ _ _ htid]
                exact hft
        · exact ih _ _ _ _ _ t tex hft hm h
      · exact ih _ _ _ _ _ t tex hft hm h


theorem applyFree_counter : ∀ (l : List TextureId) (p : TexturePool),
    (applyFree l p).next_user_texture_id = p.next_user_texture_id := by
  intro l
  induction l with
  | nil => intro p; rfl
  | cons tid rest ih =>
    intro p
    simp only [applyFree]
    split
    · split
      · exact ih _
      · exact ih _
    · exact ih _

theorem applyFree_wf : ∀ (l : List TextureId) (p : TexturePool),
    p.wf → (applyFree l p).wf := by
  intro l
  induction l with
  | nil => intro p h; exact h
  | cons tid rest ih =>
    intro p h
    simp only [applyFree]
    split
    · split
      · exact ih _ (nodup_keys_removeTex _ _ h)
      · exact ih _ h
    · exact ih _ h

theorem applyFree_none_preserved : ∀ (l : List TextureId) (p : TexturePool)
    (t : TextureId), findTex p.entries t = none →
    findTex (applyFree l p).entries t = none := by
  intro l
  induction l with
  | nil => intro p t h; exact h
  | cons tid rest ih =>
    intro p t h
    simp only [applyFree]
    split
    · split
      · exact ih _ _ (findTex_removeTex_of_none _ _ _ h)
      · exact ih _ _ h
    · exact ih _ _ h

theorem applyFree_removes : ∀ (l : List TextureId) (p : TexturePool)
    (t : TextureId) (tex : Texture), p.wf → t ∈ l →
    findTex p.entries t = some tex → tex.is_managed = true →
    findTex (applyFree l p).entries t = none := by
  intro l
  induction l with
  | nil =>
    intro p t tex _ hmem
    exact absurd hmem (by simp)
  | cons tid rest ih =>
    intro p t tex hwf hmem hft hm
    simp only [applyFree]
    by_cases htid : tid = t
    · subst htid
      simp only [hft]
      rw [if_pos hm]
      exact applyFree_none_preserved _ _ _
        (findTex_removeTex_self _ _ hwf)
    · have hmem2 : t ∈ rest := by
        rcases List.mem_cons.mp hmem with hcase | hcase
        · exact absurd hcase.symm htid
        · exact hcase
      split
      · split
        · refine ih _ t tex (nodup_keys_removeTex _ _ hwf) hmem2 ?_ hm
          rw [findTex_removeTex_ne _ _ _ htid]
          exact hft
        · exact ih _ t tex hwf hmem2 hft hm
      · exact ih _ t tex hwf hmem2 hft hm

theorem applySet_full_upload : ∀ (l : List (TextureId × ImageDelta))
    (dev : Device) (p : TexturePool) (cmds : List Cmd) (warns : List Warning)
    (st : St) (t : TextureId) (d : ImageDelta),
    (t, d) ∈ l → d.is_whole = true → 0 < d.image.width →
    0 < d.image.height → applySet l dev p cmds warns = .ok st →
    ∃ tex2, findTex st.pool.entries t = some tex2 ∧ tex2.is_managed = true := by
  intro l
  induction l with
  | nil =>
    intro dev p cmds warns st t d hmem
    exact absurd hmem (by simp)
  | cons hd rest ih =>
    intro dev p cmds warns st t d hmem hw hpw hph h
    obtain ⟨tid, d0⟩ := hd
    by_cases hhd : (tid, d0) = (t, d)
    · rw [Prod.mk.injEq] at hhd
      obtain ⟨rfl, rfl⟩ := hhd
      simp only [applySet] at h
      rw [if_pos (by simp [hw, hpw, hph])] at h
      split at h
      · exact absurd h (by simp)
      · rename_i ntex dev2 newCmds hcr
        exact applySet_managed_preserved rest _ _ _ _ _ tid ntex
          (findTex_insertTex_self _ _ _)
          (create_managed_texture_managed _ _ _ _ _ hcr) h
    · have hmem2 : (t, d) ∈ rest := by
        rcases List.mem_cons.mp hmem with hcase | hcase
        · exact absurd hcase.symm hhd
        · exact hcase
      simp only [applySet] at h
      split at h
      · split at h
        · exact absurd h (by simp)
        · exact ih _ _ _ _ _ t d hmem2 hw hpw hph h
      · split at h
        · split at h
          · split at h
            · exact absurd h (by simp)
            · split at h
              · exact absurd h (by simp)
              · exact ih _ _ _ _ _ t d hmem2 hw hpw hph h
          · exact ih _ _ _ _ _ t d hmem2 hw hpw hph h
        · exact ih _ _ _ _ _ t d hmem2 hw hpw hph h

/-- C1: in TexturePool::update all set deltas are applied strictly before
all free deltas of the same batch; in particular, when one batch contains a
full-upload delta (whole, positive size) for an id t and also frees t, a
completed update leaves get_srv t (= resolve t) with nothing: the free wins
and the texture is not resurrected. -/
theorem update_free_wins (dev : Device) (p : TexturePool)
    (delta : TexturesDelta) (t : TextureId) (d : ImageDelta) (st : St)
    (hwf : p.wf) (hmem : (t, d) ∈ delta.set) (hw : d.is_whole = true)
    (hpw : 0 < d.image.width) (hph : 0 < d.image.height)
    (hfree : t ∈ delta.free)
    (hok : TexturePool.update dev p delta = .ok st) :
    st.pool.get_srv t = none := by
  simp only [TexturePool.update] at hok
  cases hset : applySet delta.set dev p [] [] with
  | error e => rw [hset] at hok; exact absurd hok (by simp)
  | ok st0 =>
    rw [hset] at hok
    simp only [Except.ok.injEq] at hok
    obtain ⟨tex2, hft2, hm2⟩ :=
      applySet_full_upload delta.set dev p [] [] st0 t d hmem hw hpw hph hset
    have hwf0 : st0.pool.wf := applySet_wf _ _ _ _ _ _ hwf hset
    have hnone : findTex (applyFree delta.free st0.pool).entries t = none :=
      applyFree_removes _ _ _ _ hwf0 hfree hft2 hm2
    rw [← hok]
    simp only [TexturePool.get_srv, hnone, Option.map_none']

/-- Concrete batch for exercising update_free_wins: a full upload of a 1x1
image for managed id 0 together with a free of the same id. -/
def c1Delta : TexturesDelta :=
  ⟨[(.managed 0, ⟨.color ⟨1, 1, [⟨0, 0, 0, 0⟩]⟩, none⟩)], [.managed 0]⟩

/-- Witness for update_free_wins at a concrete batch. -/
theorem update_free_wins_witness :
    (⟨⟨2, fun _ => false⟩, ⟨[], 0⟩,
      [.createTexture2D 1 1 0, .createShaderResourceView 0 1], []⟩ : St).pool.get_srv
      (.managed 0) = none :=
  update_free_wins ⟨0, fun _ => false⟩ ⟨[], 0⟩ c1Delta
    (.managed 0) ⟨.color ⟨1, 1, [⟨0, 0, 0, 0⟩]⟩, none⟩ _
    (by simp [TexturePool.wf]) (by simp [c1Delta]) rfl
    (by decide) (by decide) (by simp [c1Delta]) rfl

/-- C2: a partial-update set delta whose target id is absent from the pool
or names a User entry is rejected: the pool (and in particular the entry
for that id) is unchanged, no device call is made, no fatal error is
returned, and exactly one warning is signalled. -/
theorem update_partial_rejected (dev : Device) (p : TexturePool)
    (t : TextureId) (d : ImageDelta) (hnotwhole : d.is_whole = false)
    (htarget : findTex p.entries t = none ∨
      ∃ srv, findTex p.entries t = some (.user srv)) :
    TexturePool.update dev p ⟨[(t, d)], []⟩ =
      .ok ⟨dev, p, [], [.updateNonExisting t]⟩ := by
  simp only [TexturePool.update, applySet]
  rw [if_neg (by simp [hnotwhole])]
  rcases htarget with hnone | ⟨srv, hsrv⟩
  · simp only [hnone, applySet, applyFree, List.nil_append]
  · simp only [hsrv, Texture.is_user, Texture.is_managed, Bool.false_eq_true,
      if_false, applySet, applyFree, List.nil_append]

/-- Concrete pool with one user texture, for the C2 and C3 witnesses. -/
def userPool : TexturePool := ⟨[(.user 0, .user 7)], 1⟩

/-- Witness for update_partial_rejected: a partial delta aimed at a
user-registered texture. -/
theorem update_partial_rejected_witness :
    TexturePool.update ⟨0, fun _ => false⟩ userPool
      ⟨[(.user 0, ⟨.color ⟨1, 1, [⟨9, 9, 9, 9⟩]⟩, some (0, 0)⟩)], []⟩ =
      .ok ⟨⟨0, fun _ => false⟩, userPool, [], [.updateNonExisting (.user 0)]⟩ :=
  update_partial_rejected ⟨0, fun _ => false⟩ userPool (.user 0)
    ⟨.color ⟨1, 1, [⟨9, 9, 9, 9⟩]⟩, some (0, 0)⟩ rfl
    (Or.inr ⟨7, rfl⟩)

/-- C3: unregister_user_texture returns true and removes the entry exactly
when the id maps to a User entry; on a Managed or absent id it returns
false and leaves the pool untouched; after a successful unregister,
get_srv returns nothing and a second unregister returns false. -/
theorem unregister_user_texture_spec (p : TexturePool) (t : TextureId)
    (hwf : p.wf) :
    ((p.unregister_user_texture t).1 = true ↔
      ∃ srv, findTex p.entries t = some (.user srv))
    ∧ ((p.unregister_user_texture t).1 = true →
      (p.unregister_user_texture t).2.entries = removeTex p.entries t
      ∧ (p.unregister_user_texture t).2.get_srv t = none
      ∧ ((p.unregister_user_texture t).2.unregister_user_texture t).1 = false)
    ∧ ((p.unregister_user_texture t).1 = false →
      (p.unregister_user_texture t).2 = p) := by
  cases hf : findTex p.entries t with
  | none =>
    have he : p.unregister_user_texture t = (false, p) := by
      simp [TexturePool.unregister_user_texture, hf]
    rw [he]
    refine ⟨?_, fun htrue => absurd htrue (by simp), fun _ => rfl⟩
    constructor
    · intro hfalse
      exact absurd hfalse (by simp)
    · rintro ⟨srv, hsrv⟩
      exact absurd hsrv (by simp)
  | some tex =>
    cases tex with
    | managed m =>
      have he : p.unregister_user_texture t = (false, p) := by
        simp [TexturePool.unregister_user_texture, hf, Texture.is_user]
      rw [he]
      refine ⟨?_, fun htrue => absurd htrue (by simp), fun _ => rfl⟩
      constructor
      · intro hfalse
        exact absurd hfalse (by simp)
      · rintro ⟨srv, hsrv⟩
        exact absurd hsrv (by simp)
    | user srv =>
      have hrm : findTex (removeTex p.entries t) t = none :=
        findTex_removeTex_self _ _ hwf
      have he : p.unregister_user_texture t =
          (true, { p with entries := removeTex p.entries t }) := by
        simp [TexturePool.unregister_user_texture, hf, Texture.is_user]
      rw [he]
      refine ⟨⟨fun _ => ⟨srv, rfl⟩, fun _ => rfl⟩, fun _ => ⟨rfl, ?_, ?_⟩,
        fun hfalse => absurd hfalse (by simp)⟩
      · show TexturePool.get_srv _ t = none
        simp only [TexturePool.get_srv, hrm, Option.map_none']
      · show (TexturePool.unregister_user_texture _ t).1 = false
        simp [TexturePool.unregister_user_texture, hrm]

/-- Witness for unregister_user_texture_spec: unregistering the only user
texture succeeds and a second unregister of the same id fails. -/
theorem unregister_user_texture_spec_witness :
    (userPool.unregister_user_texture (.user 0)).1 = true
    ∧ ((userPool.unregister_user_texture (.user 0)).2.unregister_user_texture
        (.user 0)).1 = false := by
  have hs := unregister_user_texture_spec userPool (.user 0)
    (by simp [TexturePool.wf, userPool])
  exact ⟨rfl, (hs.2.1 rfl).2.2⟩

/-- The unregister path never touches the user-id counter. -/
theorem unregister_counter (p : TexturePool) (tid : TextureId) :
    (p.unregister_user_texture tid).2.next_user_texture_id =
      p.next_user_texture_id := by
  simp only [TexturePool.unregister_user_texture]
  split
  · split
    · rfl
    · rfl
  · rfl

/-- A successful update never touches the user-id counter. -/
theorem update_counter (dev : Device) (p : TexturePool)
    (delta : TexturesDelta) (st : St)
    (hok : TexturePool.update dev p delta = .ok st) :
    st.pool.next_user_texture_id = p.next_user_texture_id := by
  simp only [TexturePool.update] at hok
  cases hset : applySet delta.set dev p [] [] with
  | error e => rw [hset] at hok; exact absurd hok (by simp)
  | ok st0 =>
    rw [hset] at hok
    simp only [Except.ok.injEq] at hok
    have h0 := applySet_counter delta.set dev p [] [] st0 hset
    rw [← hok]
    simpa [applyFree_counter] using h0

/-- Pool states reachable from a given pool through the public pool
mutators: register, unregister, and successful delta updates. -/
inductive Evolves : TexturePool → TexturePool → Prop where
  | refl (p : TexturePool) : Evolves p p
  | register (p q : TexturePool) (srv : Nat) (h : Evolves p q) :
      Evolves p (q.register_user_texture srv).2
  | unregister (p q : TexturePool) (tid : TextureId) (h : Evolves p q) :
      Evolves p (q.unregister_user_texture tid).2
  | update (p q : TexturePool) (dev : Device) (delta : TexturesDelta)
      (st : St) (h : Evolves p q)
      (hok : TexturePool.update dev q delta = .ok st) :
      Evolves p st.pool

/-- The user-id counter never decreases along any evolution. -/
theorem Evolves.counter_mono {p q : TexturePool} (h : Evolves p q) :
    p.next_user_texture_id ≤ q.next_user_texture_id := by
  induction h with
  | refl => exact Nat.le_refl _
  | register q srv h ih =>
    simp only [TexturePool.register_user_texture]
    omega
  | unregister q tid h ih =>
    rw [unregister_counter]
    exact ih
  | update q dev delta st h hok ih =>
    rw [update_counter dev q delta st hok]
    exact ih

/-- C4: register_user_texture always returns a user-namespace id, distinct
from every managed id (hence from every id a full-upload delta inserts,
those being managed-namespace ids per the data model), and distinct from
the id returned by any earlier register call on the same pool, across any
interleaving of register, unregister and successful update calls. -/
theorem register_user_texture_fresh (p q : TexturePool) (s1 s2 : Nat)
    (hq : Evolves (p.register_user_texture s1).2 q) :
    (∀ n, (p.register_user_texture s1).1 ≠ .managed n)
    ∧ (q.register_user_texture s2).1 ≠ (p.register_user_texture s1).1
    ∧ (∀ (delta : TexturesDelta) (td : TextureId × ImageDelta),
        td ∈ delta.set → (∃ n, td.1 = .managed n) →
        (q.register_user_texture s2).1 ≠ td.1) := by
  have hmono := hq.counter_mono
  simp only [TexturePool.register_user_texture] at hmono ⊢
  refine ⟨fun n h => by exact absurd h (by simp), ?_, ?_⟩
  · intro h
    rw [TextureId.user.injEq] at h
    omega
  · rintro delta td hmem ⟨n, hn⟩ h
    rw [hn] at h
    exact absurd h (by simp)

/-- Witness for register_user_texture_fresh: two successive registrations
on an empty pool. -/
theorem register_user_texture_fresh_witness :
    ((⟨[], 0⟩ : TexturePool).register_user_texture 3).1 ≠
      (((⟨[], 0⟩ : TexturePool).register_user_texture 5).2.register_user_texture 3).1 := by
  have hs := register_user_texture_fresh ⟨[], 0⟩
    ((⟨[], 0⟩ : TexturePool).register_user_texture 5).2 5 3
    (Evolves.refl _)
  exact fun h => hs.2.1 h.symm

/-- C9: TexturePool::update is not total: a whole set delta (no position)
with a zero-sized image, aimed at an id that currently holds a Managed
entry, fails the full-upload test, falls into the partial-update branch
and panics on delta.pos.unwrap(). -/
theorem update_panics_on_whole_empty_image :
    TexturePool.update ⟨0, fun _ => false⟩
      ⟨[(.managed 0, .managed ⟨0, 1, [], 0⟩)], 0⟩
      ⟨[(.managed 0, ⟨.color ⟨0, 0, []⟩, none⟩)], []⟩ = .error .unwrapNone := rfl

/-- C10: the per-vertex transform of Renderer::render maps positions by
ndc.x = pos.x * zoom / logicalWidth * 2 - 1 and
ndc.y = 1 - pos.y * zoom / logicalHeight * 2 over the logical frame size
(physical size divided by the pixel ratio); with pixel ratio 1 and zoom 1
the corners (0,0) and (w,h) map to (-1,1) and (1,-1); UV passes through
unchanged and each 8-bit channel c maps to c / 255. -/
theorem vertex_transform_spec (w h : Rat) (hw : w ≠ 0) (hh : h ≠ 0) :
    (∀ (fs : Nat × Nat) (ppp : Rat), frameSizeScaled fs ppp =
      ((fs.1 : Rat) / ppp, (fs.2 : Rat) / ppp))
    ∧ (∀ (z fw fh : Rat) (v : Vertex), transformVertex z fw fh v =
      ⟨(v.pos.1 * z / fw * 2 - 1, 1 - v.pos.2 * z / fh * 2), v.uv,
       ((v.color.r : Rat) / 255, (v.color.g : Rat) / 255,
        (v.color.b : Rat) / 255, (v.color.a : Rat) / 255)⟩)
    ∧ (∀ (uv : Rat × Rat) (c : Color32),
      (transformVertex 1 w h ⟨(0, 0), uv, c⟩).pos = (-1, 1))
    ∧ (∀ (uv : Rat × Rat) (c : Color32),
      (transformVertex 1 w h ⟨(w, h), uv, c⟩).pos = (1, -1))
    ∧ (∀ (z fw fh : Rat) (v : Vertex), (transformVertex z fw fh v).uv = v.uv)
    ∧ (255 : Rat) / 255 = 1 ∧ (0 : Rat) / 255 = 0 := by
  refine ⟨fun _ _ => rfl, fun _ _ _ _ => rfl, ?_, ?_, fun _ _ _ _ => rfl,
    by norm_num, by norm_num⟩
  · intro uv c
    simp [transformVertex]
  · intro uv c
    simp only [transformVertex, Prod.mk.injEq]
    constructor
    · rw [mul_one, div_self hw]
      norm_num
    · rw [mul_one, div_self hh]
      norm_num

/-- Witness for vertex_transform_spec on a 4 x 3 logical frame. -/
theorem vertex_transform_spec_witness :
    (transformVertex 1 4 3 ⟨(0, 0), (0, 0), ⟨0, 0, 0, 0⟩⟩).pos = (-1, 1)
    ∧ (transformVertex 1 4 3 ⟨(4, 3), (0, 0), ⟨0, 0, 0, 0⟩⟩).pos = (1, -1) := by
  have hs := vertex_transform_spec 4 3 (by decide) (by decide)
  exact ⟨hs.2.2.1 (0, 0) ⟨0, 0, 0, 0⟩, hs.2.2.2.1 (0, 0) ⟨0, 0, 0, 0⟩⟩

/-- The texture-resource operations emitted by TexturePool::update, as
opposed to pipeline-state bindings and draw calls of the device context. -/
def Cmd.isTexOp : Cmd → Bool
  | .createTexture2D .. => true
  | .createShaderResourceView .. => true
  | .updateSubresource .. => true
  | _ => false

/-- Pipeline-state mutations and draw calls on the device context:
topology, layout, shaders, rasterizer state, viewport, sampler, render
target, blend state, buffer bindings, scissor, shader resources, draws. -/
def Cmd.isPipeline : Cmd → Bool
  | .createTexture2D .. => false
  | .createShaderResourceView .. => false
  | .updateSubresource .. => false
  | .createBuffer .. => false
  | _ => true

theorem texOp_not_pipeline (c : Cmd) (h : c.isTexOp = true) :
    c.isPipeline = false := by
  cases c <;> first | rfl | exact absurd h (by simp [Cmd.isTexOp])

theorem create_managed_texture_texOps (dev : Device) (img : ImageData)
    (tex : Texture) (dev2 : Device) (cmds : List Cmd)
    (h : create_managed_texture dev img = .ok (tex, dev2, cmds)) :
    ∀ c ∈ cmds, c.isTexOp = true := by
  simp only [create_managed_texture] at h
  split at h
  · exact absurd h (by simp)
  · split at h
    · exact absurd h (by simp)
    · simp only [Except.ok.injEq, Prod.mk.injEq] at h
      rw [← h.2.2]
      intro c hc
      fin_cases hc <;> rfl

theorem updatePartial_texOps (t t2 : Texture) (img : ImageData)
    (pos : Nat × Nat) (cmds : List Cmd) (w : List Warning)
    (h : updatePartial t img pos = .ok (t2, cmds, w)) :
    ∀ c ∈ cmds, c.isTexOp = true := by
  cases t with
  | user srv =>
    simp only [updatePartial, Except.ok.injEq, Prod.mk.injEq] at h
    rw [← h.2.1]
    intro c hc
    exact absurd hc (by simp)
  | managed old =>
    cases img with
    | color f =>
      simp only [updatePartial] at h
      split at h
      · exact absurd h (by simp)
      · simp only [Except.ok.injEq, Prod.mk.injEq] at h
        rw [← h.2.1]
        intro c hc
        fin_cases hc
        rfl

theorem applySet_texOps : ∀ (l : List (TextureId × ImageDelta))
    (dev : Device) (p : TexturePool) (cmds : List Cmd) (warns : List Warning)
    (st : St), (∀ c ∈ cmds, c.isTexOp = true) →
    applySet l dev p cmds warns = .ok st → ∀ c ∈ st.cmds, c.isTexOp = true := by
  intro l
  induction l with
  | nil =>
    intro dev p cmds warns st hc h
    simp only [applySet, Except.ok.injEq] at h
    rw [← h]
    exact hc
  | cons hd rest ih =>
    intro dev p cmds warns st hc h
    obtain ⟨tid, d⟩ := hd
    simp only [applySet] at h
    split at h
    · split at h
      · exact absurd h (by simp)
      · rename_i ntex dev2 newCmds hcr
        refine ih _ _ _ _ _ ?_ h
        intro c hmem
        rcases List.mem_append.mp hmem with hm2 | hm2
        · exact hc c hm2
        · exact create_managed_texture_texOps _ _ _ _ _ hcr c hm2
    · split at h
      · rename_i told hf
        split at h
        · split at h
          · exact absurd h (by simp)
          · rename_i pos hp
            split at h
            · exact absurd h (by simp)
            · rename_i t2 newCmds newWarns hup
              refine ih _ _ _ _ _ ?_ h
              intro c hmem
              rcases List.mem_append.mp hmem with hm2 | hm2
              · exact hc c hm2
              · exact updatePartial_texOps _ _ _ _ _ _ hup c hm2
        · exact ih _ _ _ _ _ hc h
      · exact ih _ _ _ _ _ hc h

theorem update_texOps (dev : Device) (p : TexturePool)
    (delta : TexturesDelta) (st : St)
    (hok : TexturePool.update dev p delta = .ok st) :
    ∀ c ∈ st.cmds, c.isTexOp = true := by
  simp only [TexturePool.update] at hok
  cases hset : applySet delta.set dev p [] [] with
  | error e => rw [hset] at hok; exact absurd hok (by simp)
  | ok st0 =>
    rw [hset] at hok
    simp only [Except.ok.injEq] at hok
    have h0 := applySet_texOps delta.set dev p [] [] st0 (by simp) hset
    rw [← hok]
    exact h0

/-- C7: on a frame with no shapes, render returns exactly the result of
applying the texture deltas, and none of the device calls made mutates
pipeline state (they are only texture-resource operations); on every frame,
empty or not, the texture deltas are applied first: the resulting pool is
the delta-updated pool and the delta device calls precede all others. -/
theorem render_applies_deltas_first {α : Type}
    (tess : List α → List ClippedPrimitive) (zoom_factor : Rat)
    (dev : Device) (pool : TexturePool) (frame_size : Nat × Nat)
    (out : RendererOutput α) :
    (out.shapes = [] →
      render tess zoom_factor dev pool frame_size out =
        TexturePool.update dev pool out.textures_delta
      ∧ (∀ st, TexturePool.update dev pool out.textures_delta = .ok st →
          ∀ c ∈ st.cmds, c.isPipeline = false))
    ∧ (∀ st, render tess zoom_factor dev pool frame_size out = .ok st →
        ∃ u rest, TexturePool.update dev pool out.textures_delta = .ok u
          ∧ st.pool = u.pool ∧ st.cmds = u.cmds ++ rest) := by
  constructor
  · intro hempty
    constructor
    · simp only [render, hempty]
      cases hupd : TexturePool.update dev pool out.textures_delta with
      | error e => rfl
      | ok u => simp
    · intro st hst c hc
      exact texOp_not_pipeline c (update_texOps dev pool out.textures_delta st hst c hc)
  · intro st hst
    simp only [render] at hst
    split at hst
    · exact absurd hst (by simp)
    · rename_i u hupd
      split at hst
      · simp only [Except.ok.injEq] at hst
        exact ⟨u, [], hupd, by rw [← hst], by rw [← hst]; simp⟩
      · split at hst
        · exact absurd hst (by simp)
        · rename_i dev2 dcmds dwarns hdm
          simp only [Except.ok.injEq] at hst
          refine ⟨u, setupCmds frame_size ++ dcmds, hupd, by rw [← hst], ?_⟩
          rw [← hst]
          simp

/-- Witness for render_applies_deltas_first: an empty frame is exactly the
delta application. -/
theorem render_applies_deltas_first_witness :
    render (fun (_ : List Unit) => []) 1 ⟨0, fun _ => false⟩ ⟨[], 0⟩ (64, 64)
      ⟨⟨[], []⟩, [], 1⟩ =
      TexturePool.update ⟨0, fun _ => false⟩ ⟨[], 0⟩ ⟨[], []⟩ :=
  ((render_applies_deltas_first (fun (_ : List Unit) => []) 1 ⟨0, fun _ => false⟩
    ⟨[], 0⟩ (64, 64) ⟨⟨[], []⟩, [], 1⟩).1 rfl).1

/-- C8: Renderer::draw_mesh with a texture id that does not resolve logs a
warning, binds no shader resource at pixel-shader slot 0, and still issues
the indexed draw over all indices of the mesh; with a resolvable id the
resolved view is bound at slot 0 right before the draw. -/
theorem draw_mesh_texture_resolution (pool : TexturePool) (dev : Device)
    (m : MeshData) (h1 : dev.failAt dev.counter = false)
    (h2 : dev.failAt (dev.counter + 1) = false) :
    (pool.get_srv m.tex = none →
      draw_mesh pool dev m = .ok (⟨dev.counter + 2, dev.failAt⟩,
        [.createBuffer (m.idx.length * 4) dev.counter,
         .createBuffer (m.vtx.length * 32) (dev.counter + 1),
         .iaSetVertexBuffers (dev.counter + 1),
         .iaSetIndexBuffer dev.counter,
         .rsSetScissorRects m.clip_rect,
         .drawIndexed m.idx.length],
        [.sampleNonExisting m.tex]))
    ∧ (∀ srv, pool.get_srv m.tex = some srv →
      draw_mesh pool dev m = .ok (⟨dev.counter + 2, dev.failAt⟩,
        [.createBuffer (m.idx.length * 4) dev.counter,
         .createBuffer (m.vtx.length * 32) (dev.counter + 1),
         .iaSetVertexBuffers (dev.counter + 1),
         .iaSetIndexBuffer dev.counter,
         .rsSetScissorRects m.clip_rect,
         .psSetShaderResources srv,
         .drawIndexed m.idx.length],
        [])) := by
  constructor
  · intro hn
    simp [draw_mesh, Device.create, h1, h2, hn]
  · intro srv hs
    simp [draw_mesh, Device.create, h1, h2, hs]

/-- Concrete mesh for the draw_mesh witness. -/
def c8Mesh : MeshData := ⟨[], [0, 1, 2], .user 0, ⟨0, 0, 1, 1⟩⟩

/-- Witness for draw_mesh_texture_resolution: the unresolvable branch on an
empty pool and the resolvable branch on a pool holding user texture 0. -/
theorem draw_mesh_texture_resolution_witness :
    draw_mesh ⟨[], 0⟩ ⟨0, fun _ => false⟩ c8Mesh =
      .ok (⟨2, fun _ => false⟩,
        [.createBuffer 12 0, .createBuffer 0 1, .iaSetVertexBuffers 1,
         .iaSetIndexBuffer 0, .rsSetScissorRects ⟨0, 0, 1, 1⟩,
         .drawIndexed 3],
        [.sampleNonExisting (.user 0)])
    ∧ draw_mesh userPool ⟨0, fun _ => false⟩ c8Mesh =
      .ok (⟨2, fun _ => false⟩,
        [.createBuffer 12 0, .createBuffer 0 1, .iaSetVertexBuffers 1,
         .iaSetIndexBuffer 0, .rsSetScissorRects ⟨0, 0, 1, 1⟩,
         .psSetShaderResources 7, .drawIndexed 3],
        []) := by
  have ha := draw_mesh_texture_resolution ⟨[], 0⟩ ⟨0, fun _ => false⟩ c8Mesh rfl rfl
  have hb := draw_mesh_texture_resolution userPool ⟨0, fun _ => false⟩ c8Mesh rfl rfl
  exact ⟨ha.1 rfl, hb.2 7 rfl⟩

def Cmd.isDraw : Cmd → Bool
  | .drawIndexed _ => true
  | _ => false

def Cmd.isCreateBuffer : Cmd → Bool
  | .createBuffer .. => true
  | _ => false

theorem texOp_not_draw (c : Cmd) (h : c.isTexOp = true) :
    c.isDraw = false := by
  cases c <;> first | rfl | exact absurd h (by simp [Cmd.isTexOp])

theorem texOp_not_createBuffer (c : Cmd) (h : c.isTexOp = true) :
    c.isCreateBuffer = false := by
  cases c <;> first | rfl | exact absurd h (by simp [Cmd.isTexOp])

/-- The meshes of Renderer::render that survive the two filter_map stages:
triangle meshes with a nonzero index count that is a multiple of 3. -/
def goodMesh (m : Mesh) : Bool :=
  !m.indices.isEmpty && m.indices.length % 3 == 0

def goodMeshes (l : List ClippedPrimitive) : List Mesh :=
  l.filterMap fun cp =>
    match cp.primitive with
    | .mesh m => if goodMesh m then some m else none
    | .callback => none

/-- The primitives Renderer::render warns about as incomplete triangles:
meshes with a nonzero index count that is not a multiple of 3. -/
def badTriangle (cp : ClippedPrimitive) : Bool :=
  match cp.primitive with
  | .mesh m => !m.indices.isEmpty && m.indices.length % 3 != 0
  | .callback => false


theorem processPrims_cons_callback (z ppp : Rat) (fss : Rat × Rat)
    (cp : ClippedPrimitive) (rest : List ClippedPrimitive)
    (hcp : cp.primitive = .callback) :
    processPrims z ppp fss (cp :: rest) =
      ((processPrims z ppp fss rest).1,
       .paintCallback :: (processPrims z ppp fss rest).2) := by
  simp only [processPrims, hcp]

theorem processPrims_cons_empty (z ppp : Rat) (fss : Rat × Rat)
    (cp : ClippedPrimitive) (rest : List ClippedPrimitive) (m : Mesh)
    (hcp : cp.primitive = .mesh m) (hempty : m.indices.isEmpty = true) :
    processPrims z ppp fss (cp :: rest) = processPrims z ppp fss rest := by
  simp only [processPrims, hcp, hempty, if_true]

theorem processPrims_cons_bad (z ppp : Rat) (fss : Rat × Rat)
    (cp : ClippedPrimitive) (rest : List ClippedPrimitive) (m : Mesh)
    (hcp : cp.primitive = .mesh m) (hempty : m.indices.isEmpty = false)
    (hb : (m.indices.length % 3 != 0) = true) :
    processPrims z ppp fss (cp :: rest) =
      ((processPrims z ppp fss rest).1,
       .incompleteTriangle :: (processPrims z ppp fss rest).2) := by
  simp only [processPrims, hcp, hempty, hb, Bool.false_eq_true, if_false,
    if_true]

theorem processPrims_cons_good (z ppp : Rat) (fss : Rat × Rat)
    (cp : ClippedPrimitive) (rest : List ClippedPrimitive) (m : Mesh)
    (hcp : cp.primitive = .mesh m) (hempty : m.indices.isEmpty = false)
    (hb : (m.indices.length % 3 != 0) = false) :
    processPrims z ppp fss (cp :: rest) =
      (⟨m.vertices.map (transformVertex z fss.1 fss.2), m.indices,
        m.texture_id, scaleRect (scaleRect cp.clip_rect ppp) z⟩ ::
          (processPrims z ppp fss rest).1,
       (processPrims z ppp fss rest).2) := by
  simp only [processPrims, hcp, hempty, hb, Bool.false_eq_true, if_false]

theorem processPrims_meshes (z ppp : Rat) (fss : Rat × Rat) :
    ∀ l : List ClippedPrimitive,
    (processPrims z ppp fss l).1.map MeshData.idx =
      (goodMeshes l).map Mesh.indices := by
  intro l
  induction l with
  | nil => rfl
  | cons cp rest ih =>
    cases hcp : cp.primitive with
    | callback =>
      rw [processPrims_cons_callback z ppp fss cp rest hcp]
      simpa [goodMeshes, List.filterMap_cons, hcp] using ih
    | mesh m =>
      cases hempty : m.indices.isEmpty with
      | true =>
        rw [processPrims_cons_empty z ppp fss cp rest m hcp hempty]
        have hng : goodMesh m = false := by simp [goodMesh, hempty]
        simpa [goodMeshes, List.filterMap_cons, hcp, hng] using ih
      | false =>
        cases hb : (m.indices.length % 3 != 0) with
        | true =>
          rw [processPrims_cons_bad z ppp fss cp rest m hcp hempty hb]
          have hng : goodMesh m = false := by
            simp only [goodMesh, hempty, Bool.not_false, Bool.true_and]
            simpa using hb
          simpa [goodMeshes, List.filterMap_cons, hcp, hng] using ih
        | false =>
          rw [processPrims_cons_good z ppp fss cp rest m hcp hempty hb]
          have hg : goodMesh m = true := by
            simp only [goodMesh, hempty, Bool.not_false, Bool.true_and]
            simpa using hb
          simp only [goodMeshes, List.filterMap_cons, hcp, hg, if_true,
            List.map_cons]
          exact congrArg (m.indices :: ·) ih

theorem processPrims_warns (z ppp : Rat) (fss : Rat × Rat) :
    ∀ l : List ClippedPrimitive,
    (processPrims z ppp fss l).2.countP
      (fun w => decide (w = Warning.incompleteTriangle)) =
      l.countP badTriangle := by
  intro l
  induction l with
  | nil => rfl
  | cons cp rest ih =>
    cases hcp : cp.primitive with
    | callback =>
      rw [processPrims_cons_callback z ppp fss cp rest hcp]
      have hbt : badTriangle cp = false := by simp [badTriangle, hcp]
      simp only [List.countP_cons, hbt]
      simpa using ih
    | mesh m =>
      cases hempty : m.indices.isEmpty with
      | true =>
        rw [processPrims_cons_empty z ppp fss cp rest m hcp hempty]
        have hbt : badTriangle cp = false := by
          simp [badTriangle, hcp, hempty]
        simp only [List.countP_cons, hbt]
        simpa using ih
      | false =>
        cases hb : (m.indices.length % 3 != 0) with
        | true =>
          rw [processPrims_cons_bad z ppp fss cp rest m hcp hempty hb]
          have hbt : badTriangle cp = true := by
            simp [badTriangle, hcp, hempty, hb]
          simp only [List.countP_cons, hbt, if_true]
          simp [ih]
        | false =>
          rw [processPrims_cons_good z ppp fss cp rest m hcp hempty hb]
          have hbt : badTriangle cp = false := by
            simp [badTriangle, hcp, hempty, hb]
          simp only [List.countP_cons, hbt]
          simpa using ih

theorem draw_mesh_trace (pool : TexturePool) (dev : Device) (m : MeshData)
    (d2 : Device) (cmds : List Cmd) (ws : List Warning)
    (h : draw_mesh pool dev m = .ok (d2, cmds, ws)) :
    cmds.filter Cmd.isDraw = [.drawIndexed m.idx.length]
    ∧ (cmds.filter Cmd.isCreateBuffer).length = 2
    ∧ ∀ w ∈ ws, w ≠ Warning.incompleteTriangle := by
  simp only [draw_mesh] at h
  split at h
  · exact absurd h (by simp)
  · split at h
    · exact absurd h (by simp)
    · split at h
      · simp only [Except.ok.injEq, Prod.mk.injEq] at h
        refine ⟨?_, ?_, ?_⟩
        · rw [← h.2.1]
          simp [Cmd.isDraw, Cmd.isCreateBuffer, List.filter]
        · rw [← h.2.1]
          simp [Cmd.isDraw, Cmd.isCreateBuffer, List.filter]
        · rw [← h.2.2]
          simp
      · simp only [Except.ok.injEq, Prod.mk.injEq] at h
        refine ⟨?_, ?_, ?_⟩
        · rw [← h.2.1]
          simp [Cmd.isDraw, Cmd.isCreateBuffer, List.filter]
        · rw [← h.2.1]
          simp [Cmd.isDraw, Cmd.isCreateBuffer, List.filter]
        · rw [← h.2.2]
          simp

theorem drawMeshes_trace : ∀ (ms : List MeshData) (pool : TexturePool)
    (dev : Device) (d2 : Device) (cmds : List Cmd) (ws : List Warning),
    drawMeshes pool ms dev = .ok (d2, cmds, ws) →
    cmds.filter Cmd.isDraw = ms.map (fun m => Cmd.drawIndexed m.idx.length)
    ∧ (cmds.filter Cmd.isCreateBuffer).length = 2 * ms.length
    ∧ ∀ w ∈ ws, w ≠ Warning.incompleteTriangle := by
  intro ms
  induction ms with
  | nil =>
    intro pool dev d2 cmds ws h
    simp only [drawMeshes, Except.ok.injEq, Prod.mk.injEq] at h
    refine ⟨?_, ?_, ?_⟩
    · rw [← h.2.1]; rfl
    · rw [← h.2.1]; rfl
    · rw [← h.2.2]; simp
  | cons m rest ih =>
    intro pool dev d2 cmds ws h
    simp only [drawMeshes] at h
    split at h
    · exact absurd h (by simp)
    · rename_i dev1 cmds1 warns1 hdm
      split at h
      · exact absurd h (by simp)
      · rename_i dev2b cmds2 warns2 hrest
        simp only [Except.ok.injEq, Prod.mk.injEq] at h
        obtain ⟨hd1, hd2, hd3⟩ := draw_mesh_trace pool dev m dev1 cmds1 warns1 hdm
        obtain ⟨hr1, hr2, hr3⟩ := ih pool dev1 dev2b cmds2 warns2 hrest
        refine ⟨?_, ?_, ?_⟩
        · rw [← h.2.1, List.filter_append, hd1, hr1, List.map_cons]
          rfl
        · rw [← h.2.1, List.filter_append, List.length_append, hd2, hr2,
            List.length_cons]
          ring
        · rw [← h.2.2]
          intro w hw
          rcases List.mem_append.mp hw with hw2 | hw2
          · exact hd3 w hw2
          · exact hr3 w hw2

theorem updatePartial_warns (t t2 : Texture) (img : ImageData)
    (pos : Nat × Nat) (cmds : List Cmd) (w : List Warning)
    (h : updatePartial t img pos = .ok (t2, cmds, w)) :
    ∀ x ∈ w, x ≠ Warning.incompleteTriangle := by
  cases t with
  | user srv =>
    simp only [updatePartial, Except.ok.injEq, Prod.mk.injEq] at h
    rw [← h.2.2]
    simp
  | managed old =>
    cases img with
    | color f =>
      simp only [updatePartial] at h
      split at h
      · exact absurd h (by simp)
      · simp only [Except.ok.injEq, Prod.mk.injEq] at h
        rw [← h.2.2]
        simp

theorem applySet_warns : ∀ (l : List (TextureId × ImageDelta))
    (dev : Device) (p : TexturePool) (cmds : List Cmd) (warns : List Warning)
    (st : St), (∀ w ∈ warns, w ≠ Warning.incompleteTriangle) →
    applySet l dev p cmds warns = .ok st →
    ∀ w ∈ st.warns, w ≠ Warning.incompleteTriangle := by
  intro l
  induction l with
  | nil =>
    intro dev p cmds warns st hc h
    simp only [applySet, Except.ok.injEq] at h
    rw [← h]
    exact hc
  | cons hd rest ih =>
    intro dev p cmds warns st hc h
    obtain ⟨tid, d⟩ := hd
    simp only [applySet] at h
    split at h
    · split at h
      · exact absurd h (by simp)
      · exact ih _ _ _ _ _ hc h
    · split at h
      · rename_i told hf
        split at h
        · split at h
          · exact absurd h (by simp)
          · rename_i pos hp
            split at h
            · exact absurd h (by simp)
            · rename_i t2 newCmds newWarns hup
              refine ih _ _ _ _ _ ?_ h
              intro w hw
              rcases List.mem_append.mp hw with hw2 | hw2
              · exact hc w hw2
              · exact updatePartial_warns _ _ _ _ _ _ hup w hw2
        · refine ih _ _ _ _ _ ?_ h
          intro w hw
          rcases List.mem_append.mp hw with hw2 | hw2
          · exact hc w hw2
          · simp only [List.mem_singleton] at hw2
            rw [hw2]
            simp
      · refine ih _ _ _ _ _ ?_ h
        intro w hw
        rcases List.mem_append.mp hw with hw2 | hw2
        · exact hc w hw2
        · simp only [List.mem_singleton] at hw2
          rw [hw2]
          simp

theorem update_warns (dev : Device) (p : TexturePool)
    (delta : TexturesDelta) (st : St)
    (hok : TexturePool.update dev p delta = .ok st) :
    ∀ w ∈ st.warns, w ≠ Warning.incompleteTriangle := by
  simp only [TexturePool.update] at hok
  cases hset : applySet delta.set dev p [] [] with
  | error e => rw [hset] at hok; exact absurd hok (by simp)
  | ok st0 =>
    rw [hset] at hok
    simp only [Except.ok.injEq] at hok
    have h0 := applySet_warns delta.set dev p [] [] st0 (by simp) hset
    rw [← hok]
    exact h0

theorem setupCmds_no_draw (fs : Nat × Nat) :
    (setupCmds fs).filter Cmd.isDraw = [] := rfl

theorem setupCmds_no_createBuffer (fs : Nat × Nat) :
    (setupCmds fs).filter Cmd.isCreateBuffer = [] := rfl

/-- C6: on a non-empty frame, the draw calls issued are exactly one
DrawIndexed per tessellated triangle mesh with a nonzero index count that
is a multiple of 3 (so a zero-index or non-triangle-multiple mesh never
reaches the draw stage and creates no buffers, while the remaining meshes
are all still drawn), buffers are created only for those meshes (two per
mesh), and one incomplete-triangle warning is logged per mesh whose
nonzero index count is not a multiple of 3. -/
theorem render_skips_bad_meshes {α : Type}
    (tess : List α → List ClippedPrimitive) (zoom_factor : Rat)
    (dev : Device) (pool : TexturePool) (frame_size : Nat × Nat)
    (out : RendererOutput α) (st : St) (hs : out.shapes ≠ [])
    (hok : render tess zoom_factor dev pool frame_size out = .ok st) :
    st.cmds.filter Cmd.isDraw =
      (goodMeshes (tess out.shapes)).map
        (fun m => Cmd.drawIndexed m.indices.length)
    ∧ (st.cmds.filter Cmd.isCreateBuffer).length =
      2 * (goodMeshes (tess out.shapes)).length
    ∧ st.warns.countP (fun w => decide (w = Warning.incompleteTriangle)) =
      (tess out.shapes).countP badTriangle := by
  simp only [render] at hok
  split at hok
  · exact absurd hok (by simp)
  · rename_i u hupd
    split at hok
    · rename_i hsh
      exact absurd (List.isEmpty_iff.mp hsh) hs
    · split at hok
      · exact absurd hok (by simp)
      · rename_i dev2 dcmds dwarns hdm
        simp only [Except.ok.injEq] at hok
        have hupdTex := update_texOps dev pool out.textures_delta u hupd
        have hufd : u.cmds.filter Cmd.isDraw = [] :=
          List.filter_eq_nil_iff.mpr fun c hc => by
            rw [texOp_not_draw c (hupdTex c hc)]
            exact Bool.false_ne_true
        have hufb : u.cmds.filter Cmd.isCreateBuffer = [] :=
          List.filter_eq_nil_iff.mpr fun c hc => by
            rw [texOp_not_createBuffer c (hupdTex c hc)]
            exact Bool.false_ne_true
        obtain ⟨hd1, hd2, hd3⟩ := drawMeshes_trace _ _ _ _ _ _ hdm
        have hidx := processPrims_meshes zoom_factor out.pixels_per_point
          (frameSizeScaled frame_size out.pixels_per_point) (tess out.shapes)
        have hlen : (processPrims zoom_factor out.pixels_per_point
            (frameSizeScaled frame_size out.pixels_per_point)
            (tess out.shapes)).1.length =
            (goodMeshes (tess out.shapes)).length := by
          have := congrArg List.length hidx
          simpa using this
        refine ⟨?_, ?_, ?_⟩
        · rw [← hok]
          show (u.cmds ++ setupCmds frame_size ++ dcmds).filter Cmd.isDraw = _
          rw [List.filter_append, List.filter_append, hufd,
            setupCmds_no_draw, hd1]
          simp only [List.nil_append]
          have hmapmap := congrArg
            (List.map fun l : List Nat => Cmd.drawIndexed l.length) hidx
          rw [List.map_map, List.map_map] at hmapmap
          exact hmapmap
        · rw [← hok]
          show ((u.cmds ++ setupCmds frame_size ++ dcmds).filter
            Cmd.isCreateBuffer).length = _
          rw [List.filter_append, List.filter_append, hufb,
            setupCmds_no_createBuffer]
          simp only [List.nil_append]
          rw [hd2, hlen]
        · rw [← hok]
          show (u.warns ++ _ ++ dwarns).countP _ = _
          rw [List.countP_append, List.countP_append]
          have hu0 : u.warns.countP
              (fun w => decide (w = Warning.incompleteTriangle)) = 0 :=
            List.countP_eq_zero.mpr fun w hw => by
              simpa using update_warns dev pool out.textures_delta u hupd w hw
          have hd0 : dwarns.countP
              (fun w => decide (w = Warning.incompleteTriangle)) = 0 :=
            List.countP_eq_zero.mpr fun w hw => by
              simpa using hd3 w hw
          rw [hu0, hd0, processPrims_warns]
          simp

/-- A concrete tessellation output: one drawable mesh, one mesh with an
incomplete triangle, one mesh with no indices, one paint callback. -/
def c6Prims : List ClippedPrimitive :=
  [⟨⟨0, 0, 1, 1⟩, .mesh ⟨[0, 1, 2], [], .user 0⟩⟩,
   ⟨⟨0, 0, 1, 1⟩, .mesh ⟨[0, 1], [], .user 0⟩⟩,
   ⟨⟨0, 0, 1, 1⟩, .mesh ⟨[], [], .user 0⟩⟩,
   ⟨⟨0, 0, 1, 1⟩, .callback⟩]

def c6Out : RendererOutput Unit := ⟨⟨[], []⟩, [()], 1⟩

/-- The state render produces on c6Prims over userPool. -/
def c6St : St :=
  ⟨⟨2, fun _ => false⟩, userPool,
   [.iaSetPrimitiveTopologyTriangleList, .iaSetInputLayout, .vsSetShader,
    .psSetShader, .rsSetState, .rsSetViewports 8 8, .psSetSamplers,
    .omSetRenderTargets, .omSetBlendState, .createBuffer 12 0,
    .createBuffer 0 1, .iaSetVertexBuffers 1, .iaSetIndexBuffer 0,
    .rsSetScissorRects (scaleRect (scaleRect ⟨0, 0, 1, 1⟩ 1) 1),
    .psSetShaderResources 7, .drawIndexed 3],
   [.incompleteTriangle, .paintCallback]⟩

/-- Witness for render_skips_bad_meshes on the concrete frame. -/
theorem render_skips_bad_meshes_witness :
    c6St.cmds.filter Cmd.isDraw =
      (goodMeshes (c6Prims)).map (fun m => Cmd.drawIndexed m.indices.length)
    ∧ (c6St.cmds.filter Cmd.isCreateBuffer).length =
      2 * (goodMeshes (c6Prims)).length
    ∧ c6St.warns.countP (fun w => decide (w = Warning.incompleteTriangle)) =
      (c6Prims).countP badTriangle :=
  render_skips_bad_meshes (fun _ => c6Prims) 1 ⟨0, fun _ => false⟩ userPool
    (8, 8) c6Out c6St (by decide) rfl

theorem writeRow_ok (f : ColorImage) (W rp nx ny y : Nat) :
    ∀ (k : Nat), k ≤ f.width → ∀ (pix : List Color32) (dat : List Nat),
    (∀ x, x < f.width → y * f.width + x < f.pixels.length) →
    (∀ x, x < f.width → (ny + y) * W + nx + x < pix.length) →
    ∃ pix2 dat2,
      (List.range k).foldl
        (fun st2 x => writeStep f.pixels f.width W rp nx ny st2 y x)
        (some (pix, dat)) = some (pix2, dat2)
      ∧ pix2.length = pix.length
      ∧ (∀ x, x < k → pix2.get? ((ny + y) * W + nx + x) =
          f.pixels.get? (y * f.width + x))
      ∧ (∀ i, (∀ x, x < k → i ≠ (ny + y) * W + nx + x) →
          pix2.get? i = pix.get? i) := by
  intro k
  induction k with
  | zero =>
    intro _ pix dat _ _
    exact ⟨pix, dat, rfl, rfl, fun x hx => absurd hx (by omega),
      fun i _ => rfl⟩
  | succ n ih =>
    intro hk pix dat hfrac hwhole
    obtain ⟨pix1, dat1, hfold, hlen1, hpaint1, hun1⟩ :=
      ih (by omega) pix dat hfrac hwhole
    rw [List.range_succ, List.foldl_append, hfold]
    simp only [List.foldl_cons, List.foldl_nil]
    have hfr : y * f.width + n < f.pixels.length := hfrac n (by omega)
    cases hv : f.pixels.get? (y * f.width + n) with
    | none =>
      exact absurd (List.get?_eq_none.mp hv) (by omega)
    | some v =>
      have hw : (ny + y) * W + nx + n < pix1.length := by
        rw [hlen1]
        exact hwhole n (by omega)
      simp only [writeStep, hv]
      rw [if_pos hw]
      refine ⟨_, _, rfl, ?_, ?_, ?_⟩
      · rw [List.length_set]
        exact hlen1
      · intro x hx
        by_cases hxn : x = n
        · subst hxn
          rw [List.get?_set_eq_of_lt v hw, hv]
        · have hne : (ny + y) * W + nx + n ≠ (ny + y) * W + nx + x := by
            omega
          rw [List.get?_set_ne v pix1 hne]
          exact hpaint1 x (by omega)
      · intro i hi
        have hne : (ny + y) * W + nx + n ≠ i :=
          fun h => hi n (by omega) h.symm
        rw [List.get?_set_ne v pix1 hne]
        exact hun1 i (fun x hx => hi x (by omega))

theorem row_idx_ne (W nx fw ny y1 y2 x1 x2 : Nat) (hfw : nx + fw ≤ W)
    (hx1 : x1 < fw) (hx2 : x2 < fw) (hne : y1 ≠ y2) :
    (ny + y1) * W + nx + x1 ≠ (ny + y2) * W + nx + x2 := by
  rcases Nat.lt_trichotomy y1 y2 with h | h | h
  · have h1 : (ny + y1 + 1) * W ≤ (ny + y2) * W :=
      Nat.mul_le_mul_right W (by omega)
    have h2 : (ny + y1 + 1) * W = (ny + y1) * W + W := by ring
    omega
  · exact absurd h hne
  · have h1 : (ny + y2 + 1) * W ≤ (ny + y1) * W :=
      Nat.mul_le_mul_right W (by omega)
    have h2 : (ny + y2 + 1) * W = (ny + y2) * W + W := by ring
    omega

theorem writeLoop_aux (f : ColorImage) (W rp nx ny H : Nat)
    (pix0 : List Color32) (dat0 : List Nat)
    (hlen : pix0.length = W * H)
    (hf : f.pixels.length = f.width * f.height)
    (hx : nx + f.width ≤ W) (hy : ny + f.height ≤ H) :
    ∀ k, k ≤ f.height →
    ∃ pix dat,
      (List.range k).foldl
        (fun st y =>
          (List.range f.width).foldl
            (fun st2 x => writeStep f.pixels f.width W rp nx ny st2 y x) st)
        (some (pix0, dat0)) = some (pix, dat)
      ∧ pix.length = pix0.length
      ∧ (∀ y x, y < k → x < f.width →
          pix.get? ((ny + y) * W + nx + x) = f.pixels.get? (y * f.width + x))
      ∧ (∀ i, (∀ y x, y < k → x < f.width → i ≠ (ny + y) * W + nx + x) →
          pix.get? i = pix0.get? i) := by
  intro k
  induction k with
  | zero =>
    intro _
    exact ⟨pix0, dat0, rfl, rfl, fun y x hy2 => absurd hy2 (by omega),
      fun i _ => rfl⟩
  | succ n ih =>
    intro hk
    obtain ⟨pix1, dat1, hfold, hlen1, hpaint1, hun1⟩ := ih (by omega)
    rw [List.range_succ, List.foldl_append, hfold]
    simp only [List.foldl_cons, List.foldl_nil]
    have hfrac : ∀ x, x < f.width → n * f.width + x < f.pixels.length := by
      intro x hxlt
      calc n * f.width + x < (n + 1) * f.width := by
            rw [Nat.succ_mul]
            omega
        _ ≤ f.height * f.width := Nat.mul_le_mul_right _ (by omega)
        _ = f.pixels.length := by rw [hf, Nat.mul_comm]
    have hwhole : ∀ x, x < f.width → (ny + n) * W + nx + x < pix1.length := by
      intro x hxlt
      have h1 : (ny + n + 1) * W ≤ H * W := Nat.mul_le_mul_right W (by omega)
      have h2 : (ny + n + 1) * W = (ny + n) * W + W := by ring
      have h3 : pix1.length = W * H := by rw [hlen1, hlen]
      have h4 : W * H = H * W := Nat.mul_comm W H
      omega
    obtain ⟨pix2, dat2, hrow, hlen2, hpaint2, hun2⟩ :=
      writeRow_ok f W rp nx ny n f.width (Nat.le_refl _) pix1 dat1 hfrac hwhole
    refine ⟨pix2, dat2, hrow, by rw [hlen2, hlen1], ?_, ?_⟩
    · intro y x hylt hxlt
      by_cases hyn : y = n
      · subst hyn
        exact hpaint2 x hxlt
      · have hother : ∀ x2, x2 < f.width →
            (ny + y) * W + nx + x ≠ (ny + n) * W + nx + x2 :=
          fun x2 hx2 => row_idx_ne W nx f.width ny y n x x2 hx hxlt hx2 hyn
        rw [hun2 _ hother]
        exact hpaint1 y x (by omega) hxlt
    · intro i hi
      rw [hun2 i (fun x2 hx2 => hi n x2 (by omega) hx2)]
      exact hun1 i (fun y x hylt hxlt => hi y x (by omega) hxlt)

/-- C5: a partial update of a Managed texture whose sub-rectangle lies
within the texture succeeds, writes exactly the sub-image into the
resident pixel buffer at the corresponding offsets, leaves every other
pixel, the buffer length and the stored width unchanged, and issues one
region-limited GPU update whose box is exactly the sub-rectangle with row
pitch sub-image-width * 4 bytes. -/
theorem updatePartial_in_bounds (old : ManagedTexture) (f : ColorImage)
    (nx ny H : Nat) (hlen : old.pixels.length = old.width * H)
    (hf : f.pixels.length = f.width * f.height)
    (hx : nx + f.width ≤ old.width) (hy : ny + f.height ≤ H) :
    ∃ pix dat,
      updatePartial (.managed old) (.color f) (nx, ny) =
        .ok (.managed ⟨old.tex, old.srv, pix, old.width⟩,
             [.updateSubresource old.tex
                ⟨nx, ny, nx + f.width, ny + f.height⟩ dat (f.width * 4)],
             [])
      ∧ pix.length = old.width * H
      ∧ (∀ y x, y < f.height → x < f.width →
          pix.get? ((ny + y) * old.width + nx + x) =
            f.pixels.get? (y * f.width + x))
      ∧ (∀ i, (∀ y x, y < f.height → x < f.width →
            i ≠ (ny + y) * old.width + nx + x) →
          pix.get? i = old.pixels.get? i) := by
  obtain ⟨pix, dat, hwl, hlen2, hpaint, hun⟩ :=
    writeLoop_aux f old.width (f.width * 4) nx ny H old.pixels
      (List.replicate (f.height * (f.width * 4)) 0) hlen hf hx hy
      f.height (Nat.le_refl _)
  refine ⟨pix, dat, ?_, by rw [hlen2, hlen], hpaint, hun⟩
  simp only [updatePartial, writeLoop, hwl]

def c5Old : ManagedTexture :=
  ⟨0, 1, [⟨1, 1, 1, 1⟩, ⟨2, 2, 2, 2⟩, ⟨3, 3, 3, 3⟩, ⟨4, 4, 4, 4⟩], 2⟩

def c5Img : ColorImage := ⟨1, 1, [⟨5, 6, 7, 8⟩]⟩

/-- Witness for updatePartial_in_bounds: a 1x1 update at the origin of a
2x2 managed texture. -/
theorem updatePartial_in_bounds_witness :
    ∃ pix dat,
      updatePartial (.managed c5Old) (.color c5Img) (0, 0) =
        .ok (.managed ⟨c5Old.tex, c5Old.srv, pix, c5Old.width⟩,
             [.updateSubresource c5Old.tex
                ⟨0, 0, 0 + c5Img.width, 0 + c5Img.height⟩ dat
                (c5Img.width * 4)],
             [])
      ∧ pix.length = c5Old.width * 2
      ∧ (∀ y x, y < c5Img.height → x < c5Img.width →
          pix.get? ((0 + y) * c5Old.width + 0 + x) =
            c5Img.pixels.get? (y * c5Img.width + x))
      ∧ (∀ i, (∀ y x, y < c5Img.height → x < c5Img.width →
            i ≠ (0 + y) * c5Old.width + 0 + x) →
          pix.get? i = c5Old.pixels.get? i) :=
  updatePartial_in_bounds c5Old c5Img 0 0 2 rfl rfl (by decide) (by decide)
